import Mathlib

/-!
# Sticker Sketchpad — shallow embedding and verification

Embedding of the drawing model of `src/src/main.ts` (the Sticker Sketchpad):
tools, display commands (marker strokes and sticker stamps), the preview,
the display list / redo stack history, and the canvas event handlers
(`mousedown`, `mousemove`, `mouseup`, the Clear/Undo/Redo button handlers and
`setTool`).

JavaScript objects created by `makeMarkerCommand` / `makeStickerCommand` are
mutable and aliased (the same object is referenced by `current` and by the
`displayList` / `redoStack` arrays).  The embedding therefore uses an explicit
store (`store : List DisplayCommand`, the heap) and the arrays and the
`current` slot hold store indices; `drag` mutates the store cell, which is
what the aliased mutation in the source does.

Rendering side effects are modelled as a list of `DrawOp` canvas operations;
`display` produces the operations the source's `display(ctx)` would issue,
and `displayRun` additionally returns the command state after the call (the
source closure reads `points` / `thickness` / `px` / `py` but assigns none of
them, so the command comes back unchanged).
-/

namespace Sketchpad

/-- A recorded point, `{x, y}` in canvas pixel coordinates. -/
structure Point where
  x : Int
  y : Int
deriving DecidableEq, Repr

/-- The tagged union `Tool = MarkerTool | StickerTool` of `main.ts`. -/
inductive Tool where
  | marker (thickness : Int)
  | sticker (emoji : String) (size : Int)
deriving DecidableEq, Repr

/-- The state of a `DisplayCommand` object: a marker stroke closure carries
`thickness` and its (mutable) `points` array; a sticker closure carries
`emoji`, `size` and its (mutable) anchor `px, py`. -/
inductive DisplayCommand where
  | marker (thickness : Int) (points : List Point)
  | sticker (emoji : String) (size : Int) (px py : Int)
deriving DecidableEq, Repr

/-- `makeMarkerCommand(thickness, x, y)`: starts with `points = [{x, y}]`. -/
def makeMarkerCommand (thickness x y : Int) : DisplayCommand :=
  DisplayCommand.marker thickness [⟨x, y⟩]

/-- `makeStickerCommand(emoji, size, x, y)`: anchor starts at `(x, y)`. -/
def makeStickerCommand (emoji : String) (size x y : Int) : DisplayCommand :=
  DisplayCommand.sticker emoji size x y

/-- The `drag(nx, ny)` method: a marker appends the point to `points`; a
sticker replaces its anchor (`px = nx; py = ny`). -/
def DisplayCommand.drag : DisplayCommand → Int → Int → DisplayCommand
  | DisplayCommand.marker t pts, nx, ny =>
      DisplayCommand.marker t (pts ++ [⟨nx, ny⟩])
  | DisplayCommand.sticker e s _ _, nx, ny =>
      DisplayCommand.sticker e s nx ny

/-- One canvas-context operation issued by a `display(ctx)` body. -/
inductive DrawOp where
  | save
  | setLineWidth (w : Int)
  | setLineCap (s : String)
  | setLineJoin (s : String)
  | setStrokeStyle (s : String)
  | beginPath
  | moveTo (x y : Int)
  | lineTo (x y : Int)
  | stroke
  | restore
  | setFont (f : String)
  | setTextAlign (a : String)
  | setTextBaseline (b : String)
  | fillText (s : String) (x y : Int)
deriving DecidableEq, Repr

/-- The path body of the marker `display`: `moveTo(points[0])` then
`lineTo(points[i])` for `i = 1 ..`. -/
def markerPathOps : List Point → List DrawOp
  | [] => []
  | p :: rest => DrawOp.moveTo p.x p.y :: rest.map (fun q => DrawOp.lineTo q.x q.y)

/-- The font string built by the sticker `display`. -/
def stickerFont (size : Int) : String :=
  toString size ++
    "px system-ui, Apple Color Emoji, Segoe UI Emoji, Noto Color Emoji, sans-serif"

/-- The canvas operations issued by one `display(ctx)` call.  The marker
body returns immediately when `points.length < 2`. -/
def DisplayCommand.display : DisplayCommand → List DrawOp
  | DisplayCommand.marker thickness points =>
      if points.length < 2 then []
      else
        [DrawOp.save, DrawOp.setLineWidth thickness, DrawOp.setLineCap "round",
         DrawOp.setLineJoin "round", DrawOp.setStrokeStyle "black",
         DrawOp.beginPath]
        ++ markerPathOps points
        ++ [DrawOp.stroke, DrawOp.restore]
  | DisplayCommand.sticker emoji size px py =>
      [DrawOp.save, DrawOp.setFont (stickerFont size),
       DrawOp.setTextAlign "center", DrawOp.setTextBaseline "middle",
       DrawOp.fillText emoji px py, DrawOp.restore]

/-- One `display(ctx)` call as a state transformer: it appends its operations
to the canvas log and yields the command state afterwards.  The source
closures read their captured variables and assign none of them, so the
command component is the input command. -/
def DisplayCommand.displayRun (c : DisplayCommand) (canvas : List DrawOp) :
    DisplayCommand × List DrawOp :=
  (c, canvas ++ c.display)

/-- `n` successive `display` calls on the same command object. -/
def displayIter (c : DisplayCommand) (canvas : List DrawOp) :
    Nat → DisplayCommand × List DrawOp
  | 0 => (c, canvas)
  | n + 1 =>
      (displayIter c canvas n).1.displayRun (displayIter c canvas n).2

/-- The state of a preview object (its `display` closure captures exactly
these values). -/
inductive Preview where
  | markerPreview (thickness : Int) (x y : Int)
  | stickerPreview (emoji : String) (size : Int) (x y : Int)
deriving DecidableEq, Repr

/-- A change raised through `notify(name)` on the event bus. -/
inductive Notice where
  | drawingChanged
  | toolMoved
deriving DecidableEq, Repr

/-- The module-level mutable state of `main.ts`: `tool`, `current`,
`preview`, `displayList`, `redoStack`, `mouseDown`, `mouseX`, `mouseY` — with
the command heap made explicit in `store` (indices into `store` stand for
object references). -/
structure AppState where
  tool : Tool
  store : List DisplayCommand
  current : Option Nat
  preview : Option Preview
  displayList : List Nat
  redoStack : List Nat
  mouseDown : Bool
  mouseX : Int
  mouseY : Int
deriving DecidableEq, Repr

/-- Dereference a command id in the heap (ids held by the state are always
in range, as the reachability invariant proves). -/
def heapGet (store : List DisplayCommand) (i : Nat) : DisplayCommand :=
  store.getD i (DisplayCommand.marker 0 [])

/-- `updatePreview(x, y)`: clears the preview while the mouse is down,
otherwise builds the preview of the current tool at `(x, y)`. -/
def updatePreview (s : AppState) (x y : Int) : AppState :=
  if s.mouseDown then { s with preview := none }
  else
    match s.tool with
    | Tool.marker t =>
        { s with preview := some (Preview.markerPreview t x y) }
    | Tool.sticker e sz =>
        { s with preview := some (Preview.stickerPreview e sz x y) }

/-- The command the `mousedown` handler constructs from the active tool. -/
def toolCommandAt (t : Tool) (x y : Int) : DisplayCommand :=
  match t with
  | Tool.marker th => makeMarkerCommand th x y
  | Tool.sticker e sz => makeStickerCommand e sz x y

/-- The canvas `mousedown` handler: sets `mouseDown`, constructs the command
for the active tool at the event point, pushes it onto `displayList` (and
keeps it as `current` — the same object), truncates `redoStack`, and raises
`drawing-changed`. -/
def mousedownStep (s : AppState) (x y : Int) : AppState × List Notice :=
  let cid := s.store.length
  ({ s with
      mouseDown := true
      store := s.store ++ [toolCommandAt s.tool x y]
      current := some cid
      displayList := s.displayList ++ [cid]
      redoStack := [] }, [Notice.drawingChanged])

/-- The canvas `mousemove` handler: records `mouseX`/`mouseY`; while a
command is in progress it drags it (mutating the shared heap cell) and
raises `drawing-changed`, otherwise it refreshes the preview and raises
`tool-moved`. -/
def mousemoveStep (s : AppState) (x y : Int) : AppState × List Notice :=
  let s1 := { s with mouseX := x, mouseY := y }
  match s1.current with
  | some cid =>
      ({ s1 with store := s1.store.set cid ((heapGet s1.store cid).drag x y) },
        [Notice.drawingChanged])
  | none =>
      (updatePreview s1 x y, [Notice.toolMoved])

/-- The canvas `mouseup` handler: unconditionally resets `mouseDown`, drops
`current`, refreshes the preview at the last mouse position, and raises
`drawing-changed`. -/
def mouseupStep (s : AppState) : AppState × List Notice :=
  let s1 := { s with mouseDown := false, current := none }
  (updatePreview s1 s1.mouseX s1.mouseY, [Notice.drawingChanged])

/-- The Clear button handler: empties both arrays, drops `current` and the
preview, raises `drawing-changed`. -/
def clearStep (s : AppState) : AppState × List Notice :=
  ({ s with
      displayList := []
      redoStack := []
      current := none
      preview := none }, [Notice.drawingChanged])

/-- The Undo button handler: returns untouched (raising nothing) when
`displayList` is empty; otherwise pops the last committed command onto
`redoStack` and raises `drawing-changed`. -/
def undoStep (s : AppState) : AppState × List Notice :=
  match s.displayList.getLast? with
  | none => (s, [])
  | some popped =>
      ({ s with
          displayList := s.displayList.dropLast
          redoStack := s.redoStack ++ [popped] }, [Notice.drawingChanged])

/-- The Redo button handler: returns untouched (raising nothing) when
`redoStack` is empty; otherwise pops the last undone command back onto
`displayList` and raises `drawing-changed`. -/
def redoStep (s : AppState) : AppState × List Notice :=
  match s.redoStack.getLast? with
  | none => (s, [])
  | some popped =>
      ({ s with
          redoStack := s.redoStack.dropLast
          displayList := s.displayList ++ [popped] }, [Notice.drawingChanged])

/-- `setTool(t)`: replaces the active tool, refreshes the preview at the last
mouse position, raises `tool-moved` (the button-highlight class toggles are
DOM-only). -/
def setToolStep (s : AppState) (t : Tool) : AppState × List Notice :=
  let s1 := { s with tool := t }
  (updatePreview s1 s1.mouseX s1.mouseY, [Notice.toolMoved])

/-- `redraw` sets `undoBtn.disabled = displayList.length === 0`; the exposed
undo-enabled boolean is its negation. -/
def undoEnabled (s : AppState) : Bool :=
  !(s.displayList.length == 0)

/-- `redraw` sets `redoBtn.disabled = redoStack.length === 0`; the exposed
redo-enabled boolean is its negation. -/
def redoEnabled (s : AppState) : Bool :=
  !(s.redoStack.length == 0)

/-- `THIN`, the default marker thickness of `main.ts`. -/
def THIN : Int := 3

/-- The module-level initial values: default marker tool, empty arrays, no
current command, no preview, mouse up at `(0, 0)`. -/
def moduleInit : AppState :=
  { tool := Tool.marker THIN
    store := []
    current := none
    preview := none
    displayList := []
    redoStack := []
    mouseDown := false
    mouseX := 0
    mouseY := 0 }

/-- The state after the startup line `setTool(tool)` has run. -/
def initState : AppState :=
  (setToolStep moduleInit (Tool.marker THIN)).1

/-- The external events the handlers respond to. -/
inductive Event where
  | mousedown (x y : Int)
  | mousemove (x y : Int)
  | mouseup
  | undoClick
  | redoClick
  | clearClick
  | toolClick (t : Tool)
deriving DecidableEq, Repr

/-- Dispatch one event to its handler. -/
def step (s : AppState) : Event → AppState × List Notice
  | Event.mousedown x y => mousedownStep s x y
  | Event.mousemove x y => mousemoveStep s x y
  | Event.mouseup => mouseupStep s
  | Event.undoClick => undoStep s
  | Event.redoClick => redoStep s
  | Event.clearClick => clearStep s
  | Event.toolClick t => setToolStep s t

/-- The state component of one event step. -/
def stepS (s : AppState) (e : Event) : AppState :=
  (step s e).1

/-- Run a list of events from a given state. -/
def runFrom (s : AppState) (evs : List Event) : AppState :=
  evs.foldl stepS s

/-- Run a list of events from the startup state. -/
def run (evs : List Event) : AppState :=
  runFrom initState evs

/-- A state the application can actually be in: produced by some event
sequence from startup. -/
def Reachable (s : AppState) : Prop :=
  ∃ evs, run evs = s

/-- The spec scenario of claim C7: select the thickness-4 marker, press at
(10,10), move to (20,20), release. -/
def scenarioEvents : List Event :=
  [Event.toolClick (Tool.marker 4), Event.mousedown 10 10,
   Event.mousemove 20 20, Event.mouseup]

/-- Dragging a command through a list of points, as successive `mousemove`
events do to the in-progress command. -/
def applyDrags (c : DisplayCommand) (ds : List Point) : DisplayCommand :=
  ds.foldl (fun c p => c.drag p.x p.y) c

/-- A concrete reachable state with a gesture in progress (used as a sample
input for hypothesis-bearing theorems). -/
def midGestureState : AppState :=
  run [Event.mousedown 1 1]

/-- `updatePreview` writes only the `preview` field. -/
theorem updatePreview_fields (s : AppState) (x y : Int) :
    (updatePreview s x y).displayList = s.displayList ∧
    (updatePreview s x y).redoStack = s.redoStack ∧
    (updatePreview s x y).store = s.store ∧
    (updatePreview s x y).current = s.current ∧
    (updatePreview s x y).tool = s.tool ∧
    (updatePreview s x y).mouseDown = s.mouseDown ∧
    (updatePreview s x y).mouseX = s.mouseX ∧
    (updatePreview s x y).mouseY = s.mouseY := by
  unfold updatePreview
  split
  · exact ⟨rfl, rfl, rfl, rfl, rfl, rfl, rfl, rfl⟩
  · split <;> exact ⟨rfl, rfl, rfl, rfl, rfl, rfl, rfl, rfl⟩

/-- Iterated `display` calls leave the command state untouched. -/
theorem displayIter_fst (c : DisplayCommand) (canvas : List DrawOp) (n : Nat) :
    (displayIter c canvas n).1 = c := by
  induction n with
  | zero => rfl
  | succ n ih => simp [displayIter, DisplayCommand.displayRun, ih]

/-- C1: in every state, pointer-down appends exactly one new Drawable —
built from the active tool at the event point — to the end of the committed
list (and of the heap, so every other committed Drawable is untouched and
in place), makes it the in-progress one, and empties the undone stack, so
redo-enabled is false immediately after. -/
theorem mousedown_appends_one (s : AppState) (x y : Int) :
    (mousedownStep s x y).1.displayList = s.displayList ++ [s.store.length] ∧
    (mousedownStep s x y).1.store = s.store ++ [toolCommandAt s.tool x y] ∧
    (mousedownStep s x y).1.current = some s.store.length ∧
    (mousedownStep s x y).1.redoStack = [] ∧
    redoEnabled (mousedownStep s x y).1 = false := by
  refine ⟨rfl, rfl, rfl, rfl, rfl⟩

/-- C5: after the Clear handler, committed is empty, undone is empty and
there is no in-progress Drawable, whatever the prior state (mid-gesture
included) — all in the one handler step. -/
theorem clear_resets (s : AppState) :
    (clearStep s).1.displayList = [] ∧
    (clearStep s).1.redoStack = [] ∧
    (clearStep s).1.current = none := by
  exact ⟨rfl, rfl, rfl⟩

/-- C3: Undo with an empty committed list and Redo with an empty undone
stack both return the state untouched and raise no change notice. -/
theorem undo_redo_empty_noop (s t : AppState) :
    (s.displayList = [] → undoStep s = (s, [])) ∧
    (t.redoStack = [] → redoStep t = (t, [])) := by
  constructor
  · intro h
    simp [undoStep, h]
  · intro h
    simp [redoStep, h]

/-- The empty-history no-op theorem applied at the startup state. -/
theorem undo_redo_empty_noop_witness :
    undoStep initState = (initState, []) ∧
    redoStep initState = (initState, []) :=
  ⟨(undo_redo_empty_noop initState initState).1 rfl,
   (undo_redo_empty_noop initState initState).2 rfl⟩

/-- C2: on any state with a non-empty committed list, Undo followed
immediately by Redo restores the whole state — in particular both the
committed list and the undone stack — exactly. -/
theorem undo_then_redo_restores (s : AppState) (h : s.displayList ≠ []) :
    (redoStep (undoStep s).1).1 = s := by
  have h1 : s.displayList.getLast? = some (s.displayList.getLast h) :=
    List.getLast?_eq_getLast s.displayList h
  simp [undoStep, redoStep, h1, List.getLast?_concat, List.dropLast_concat,
        List.dropLast_concat_getLast]

/-- Undo-then-redo round trip at a concrete one-stroke state. -/
theorem undo_then_redo_restores_witness :
    (redoStep (undoStep midGestureState).1).1 = midGestureState :=
  undo_then_redo_restores midGestureState (by decide)

/-- C4 fails on the code: at the startup state (no in-progress Drawable) the
`mouseup` handler still raises a `drawing-changed` notice, and right after a
Clear (preview dropped, still no in-progress Drawable) it also mutates the
state, rebuilding the preview. -/
theorem mouseup_silent_cex :
    initState.current = none ∧
    (mouseupStep initState).2 = [Notice.drawingChanged] ∧
    (clearStep initState).1.current = none ∧
    (mouseupStep (clearStep initState).1).1 ≠ (clearStep initState).1 := by
  decide

/-- C4 amended: pointer-up leaves committed, undone, the heap, the tool and
the mouse coordinates unchanged and ends with no in-progress Drawable, but
it is not silent: it always forces `mouseDown` to false, recomputes the
preview for the released mouse at the last pointer position, and raises a
`drawing-changed` notice — also when no Drawable was in progress. -/
theorem mouseup_always_notifies (s : AppState) :
    (mouseupStep s).1.displayList = s.displayList ∧
    (mouseupStep s).1.redoStack = s.redoStack ∧
    (mouseupStep s).1.store = s.store ∧
    (mouseupStep s).1.tool = s.tool ∧
    (mouseupStep s).1.mouseX = s.mouseX ∧
    (mouseupStep s).1.mouseY = s.mouseY ∧
    (mouseupStep s).1.current = none ∧
    (mouseupStep s).1.mouseDown = false ∧
    (mouseupStep s).1.preview =
      (updatePreview { s with mouseDown := false, current := none }
        s.mouseX s.mouseY).preview ∧
    (mouseupStep s).2 = [Notice.drawingChanged] := by
  have h := updatePreview_fields
    { s with mouseDown := false, current := none } s.mouseX s.mouseY
  exact ⟨h.1, h.2.1, h.2.2.1, h.2.2.2.2.1, h.2.2.2.2.2.2.1, h.2.2.2.2.2.2.2,
    h.2.2.2.1, h.2.2.2.2.2.1, rfl, rfl⟩

/-- C6: a marker stroke's `display` with fewer than two recorded points
issues no canvas operation at all (any number of calls leaves the canvas
log untouched), and `display` never mutates the stroke — thickness and
point list are identical after any number of calls, whatever the points. -/
theorem marker_render_noop_and_pure (t : Int) (pts : List Point)
    (canvas : List DrawOp) (n : Nat) :
    (pts.length < 2 →
      (DisplayCommand.marker t pts).display = [] ∧
      displayIter (DisplayCommand.marker t pts) canvas n =
        (DisplayCommand.marker t pts, canvas)) ∧
    (displayIter (DisplayCommand.marker t pts) canvas n).1 =
      DisplayCommand.marker t pts := by
  constructor
  · intro h
    have hd : (DisplayCommand.marker t pts).display = [] := by
      simp [DisplayCommand.display, h]
    refine ⟨hd, ?_⟩
    induction n with
    | zero => rfl
    | succ n ih => simp [displayIter, DisplayCommand.displayRun, ih, hd]
  · exact displayIter_fst _ _ _

/-- The short-stroke render theorem at a concrete one-point stroke, three
render calls. -/
theorem marker_render_noop_and_pure_witness :
    (DisplayCommand.marker 4 [⟨1, 2⟩]).display = [] ∧
    displayIter (DisplayCommand.marker 4 [⟨1, 2⟩]) [] 3 =
      (DisplayCommand.marker 4 [⟨1, 2⟩], []) :=
  (marker_render_noop_and_pure 4 [⟨1, 2⟩] [] 3).1 (by decide)

/-- C7: from the startup (empty) history, begin with the thickness-4 marker
at (10,10), extend to (20,20), end: committed holds exactly one stroke with
points [(10,10), (20,20)]; undo is enabled and redo is not. -/
theorem scenario_single_stroke :
    (run scenarioEvents).displayList = [0] ∧
    (run scenarioEvents).store =
      [DisplayCommand.marker 4 [⟨10, 10⟩, ⟨20, 20⟩]] ∧
    (run scenarioEvents).current = none ∧
    undoEnabled (run scenarioEvents) = true ∧
    redoEnabled (run scenarioEvents) = false := by
  decide

/-- C8: a sticker command's anchor is repositioned, never accumulated: after
any sequence of drags it sits at the last drag point, and at the begin point
when no drag happened. -/
theorem sticker_drag_repositions (e : String) (sz x y : Int) (ds : List Point) :
    applyDrags (makeStickerCommand e sz x y) ds =
      match ds.getLast? with
      | none => DisplayCommand.sticker e sz x y
      | some p => DisplayCommand.sticker e sz p.x p.y := by
  induction ds generalizing x y with
  | nil => rfl
  | cons d ds ih =>
    cases ds with
    | nil =>
      simp [applyDrags, makeStickerCommand, DisplayCommand.drag]
    | cons d2 ds2 =>
      have step1 : applyDrags (makeStickerCommand e sz x y) (d :: d2 :: ds2) =
          applyDrags (makeStickerCommand e sz d.x d.y) (d2 :: ds2) := rfl
      have hg : (d2 :: ds2).getLast? = some ((d2 :: ds2).getLast (by simp)) :=
        List.getLast?_eq_getLast _ (by simp)
      rw [step1, ih d.x d.y, List.getLast?_cons_cons, hg]

/-- The history well-formedness invariant: no command id occurs twice across
`displayList` and `redoStack`, and every id either array holds is a live
heap index. -/
def HistoryWF (s : AppState) : Prop :=
  (s.displayList ++ s.redoStack).Nodup ∧
  ∀ i ∈ s.displayList ++ s.redoStack, i < s.store.length

/-- `updatePreview` preserves the history invariant (it only writes the
preview). -/
theorem histWF_updatePreview (s : AppState) (x y : Int) (h : HistoryWF s) :
    HistoryWF (updatePreview s x y) := by
  unfold updatePreview
  split
  · exact h
  · split <;> exact h

/-- Every event handler preserves the history invariant. -/
theorem histWF_step (s : AppState) (e : Event) (h : HistoryWF s) :
    HistoryWF (stepS s e) := by
  obtain ⟨hnd, hbd⟩ := h
  cases e with
  | mousedown x y =>
    have hdl : s.displayList.Nodup := hnd.of_append_left
    have hni : s.store.length ∉ s.displayList := fun hm =>
      absurd (hbd _ (List.mem_append_left _ hm)) (lt_irrefl _)
    constructor
    · show ((s.displayList ++ [s.store.length]) ++ []).Nodup
      rw [List.append_nil]
      exact List.nodup_append.mpr ⟨hdl, List.nodup_singleton _,
        fun a ha hb => by simp at hb; subst hb; exact hni ha⟩
    · show ∀ i ∈ (s.displayList ++ [s.store.length]) ++ [],
        i < (s.store ++ [toolCommandAt s.tool x y]).length
      intro i hi
      rw [List.append_nil] at hi
      rcases List.mem_append.mp hi with hiL | hiR
      · have := hbd i (List.mem_append_left _ hiL)
        simp only [List.length_append, List.length_singleton]
        omega
      · simp only [List.mem_singleton] at hiR
        simp [hiR, List.length_append]
  | mousemove x y =>
    cases hc : s.current with
    | none =>
      have hstep : stepS s (Event.mousemove x y) =
          updatePreview { s with mouseX := x, mouseY := y } x y := by
        simp [stepS, step, mousemoveStep, hc]
      rw [hstep]
      exact histWF_updatePreview _ x y ⟨hnd, hbd⟩
    | some cid =>
      have hstep : stepS s (Event.mousemove x y) =
          { s with
              mouseX := x
              mouseY := y
              store := s.store.set cid ((heapGet s.store cid).drag x y) } := by
        simp [stepS, step, mousemoveStep, hc]
      rw [hstep]
      exact ⟨hnd, fun i hi => by
        simpa [List.length_set] using hbd i hi⟩
  | mouseup =>
    exact histWF_updatePreview
      { s with mouseDown := false, current := none } _ _ ⟨hnd, hbd⟩
  | undoClick =>
    cases hg : s.displayList.getLast? with
    | none =>
      have hstep : stepS s Event.undoClick = s := by
        simp [stepS, step, undoStep, hg]
      rw [hstep]
      exact ⟨hnd, hbd⟩
    | some a =>
      have hne : s.displayList ≠ [] := by
        intro h0
        rw [h0] at hg
        simp at hg
      have ha : s.displayList.dropLast ++ [a] = s.displayList := by
        have h1 := List.getLast?_eq_getLast s.displayList hne
        rw [hg] at h1
        rw [Option.some_inj.mp h1]
        exact List.dropLast_concat_getLast hne
      have hperm : (s.displayList.dropLast ++ (s.redoStack ++ [a])).Perm
          (s.displayList ++ s.redoStack) := by
        have p1 : (s.displayList.dropLast ++ (s.redoStack ++ [a])).Perm
            (s.displayList.dropLast ++ ([a] ++ s.redoStack)) :=
          List.Perm.append_left _ List.perm_append_comm
        have p2 : s.displayList.dropLast ++ ([a] ++ s.redoStack) =
            (s.displayList.dropLast ++ [a]) ++ s.redoStack := by
          rw [List.append_assoc]
        rw [p2, ha] at p1
        exact p1
      have hstep : stepS s Event.undoClick =
          { s with
              displayList := s.displayList.dropLast
              redoStack := s.redoStack ++ [a] } := by
        simp [stepS, step, undoStep, hg]
      rw [hstep]
      exact ⟨hperm.nodup_iff.mpr hnd,
        fun i hi => hbd i (hperm.mem_iff.mp hi)⟩
  | redoClick =>
    cases hg : s.redoStack.getLast? with
    | none =>
      have hstep : stepS s Event.redoClick = s := by
        simp [stepS, step, redoStep, hg]
      rw [hstep]
      exact ⟨hnd, hbd⟩
    | some a =>
      have hne : s.redoStack ≠ [] := by
        intro h0
        rw [h0] at hg
        simp at hg
      have ha : s.redoStack.dropLast ++ [a] = s.redoStack := by
        have h1 := List.getLast?_eq_getLast s.redoStack hne
        rw [hg] at h1
        rw [Option.some_inj.mp h1]
        exact List.dropLast_concat_getLast hne
      have hperm : ((s.displayList ++ [a]) ++ s.redoStack.dropLast).Perm
          (s.displayList ++ s.redoStack) := by
        have p1 : (s.displayList ++ ([a] ++ s.redoStack.dropLast)).Perm
            (s.displayList ++ (s.redoStack.dropLast ++ [a])) :=
          List.Perm.append_left _ List.perm_append_comm
        rw [ha] at p1
        rw [List.append_assoc]
        exact p1
      have hstep : stepS s Event.redoClick =
          { s with
              redoStack := s.redoStack.dropLast
              displayList := s.displayList ++ [a] } := by
        simp [stepS, step, redoStep, hg]
      rw [hstep]
      exact ⟨hperm.nodup_iff.mpr hnd,
        fun i hi => hbd i (hperm.mem_iff.mp hi)⟩
  | clearClick =>
    refine ⟨?_, ?_⟩
    · show (([] : List Nat) ++ []).Nodup
      simp
    · show ∀ i ∈ ([] : List Nat) ++ [], i < (clearStep s).1.store.length
      simp
  | toolClick t =>
    exact histWF_updatePreview { s with tool := t } _ _ ⟨hnd, hbd⟩

/-- The startup state satisfies the history invariant. -/
theorem histWF_init : HistoryWF initState := by
  constructor <;> simp [initState, setToolStep, updatePreview, moduleInit]

/-- Running any event sequence preserves the history invariant. -/
theorem histWF_runFrom (evs : List Event) :
    ∀ s : AppState, HistoryWF s → HistoryWF (runFrom s evs) := by
  induction evs with
  | nil => exact fun s h => h
  | cons e evs ih => exact fun s h => ih _ (histWF_step s e h)

/-- C9 fails on the code: in the reachable state right after a pointer-down
(gesture still active — the mouse is down), the in-progress Drawable (heap
id 0) is already present in the committed list. -/
theorem inprogress_in_committed_cex :
    midGestureState.mouseDown = true ∧
    midGestureState.current = some 0 ∧
    0 ∈ midGestureState.displayList := by
  decide

/-- C9 amended: in every reachable state, committed and undone are duplicate
free and disjoint (a Drawable is in at most one of the two, at most once),
and every id they hold references a created Drawable in the heap; the
in-progress Drawable, however, is not kept out of committed — pointer-down
makes it both the in-progress one and the last committed entry at once. -/
theorem committed_undone_partition (s : AppState) (h : Reachable s) :
    s.displayList.Nodup ∧ s.redoStack.Nodup ∧
    (∀ i, i ∈ s.displayList → i ∉ s.redoStack) ∧
    (∀ i ∈ s.displayList ++ s.redoStack, i < s.store.length) ∧
    (∀ x y, (mousedownStep s x y).1.current =
      (mousedownStep s x y).1.displayList.getLast?) := by
  obtain ⟨evs, rfl⟩ := h
  obtain ⟨hnd, hbd⟩ := histWF_runFrom evs initState histWF_init
  refine ⟨hnd.of_append_left, hnd.of_append_right, ?_, hbd, ?_⟩
  · intro i hi hir
    exact List.disjoint_of_nodup_append hnd hi hir
  · intro x y
    show some _ = ((run evs).displayList ++ [(run evs).store.length]).getLast?
    rw [List.getLast?_concat]

/-- The partition invariant applied at the (reachable) startup state. -/
theorem committed_undone_partition_witness :
    initState.displayList.Nodup ∧ initState.redoStack.Nodup ∧
    (∀ i, i ∈ initState.displayList → i ∉ initState.redoStack) ∧
    (∀ i ∈ initState.displayList ++ initState.redoStack,
      i < initState.store.length) ∧
    (∀ x y, (mousedownStep initState x y).1.current =
      (mousedownStep initState x y).1.displayList.getLast?) :=
  committed_undone_partition initState ⟨[], rfl⟩

/-- C10: a pointer-down during an active gesture is not rejected: the prior
in-progress Drawable stays in the committed list with its contents intact,
a fresh Drawable (a genuinely new heap cell) is appended to committed and
becomes the new in-progress one, and the undone stack is cleared. -/
theorem begin_while_drawing (s : AppState) (i : Nat) (x y : Int)
    (_hc : s.current = some i) (hm : i ∈ s.displayList)
    (hb : i < s.store.length) :
    (mousedownStep s x y).1.displayList =
      s.displayList ++ [s.store.length] ∧
    (mousedownStep s x y).1.current = some s.store.length ∧
    s.store.length ≠ i ∧
    i ∈ (mousedownStep s x y).1.displayList ∧
    heapGet (mousedownStep s x y).1.store i = heapGet s.store i ∧
    (mousedownStep s x y).1.redoStack = [] := by
  refine ⟨rfl, rfl, ?_, ?_, ?_, rfl⟩
  · omega
  · exact List.mem_append_left _ hm
  · show heapGet (s.store ++ [toolCommandAt s.tool x y]) i = heapGet s.store i
    simp [heapGet, List.getD_eq_getElem?_getD, List.getElem?_append_left hb]

/-- Pointer-down during the gesture of `midGestureState`: the stroke begun
at (1,1) stays committed while a new command takes over as in-progress. -/
theorem begin_while_drawing_witness :
    (mousedownStep midGestureState 5 6).1.displayList =
      midGestureState.displayList ++ [midGestureState.store.length] ∧
    (mousedownStep midGestureState 5 6).1.current =
      some midGestureState.store.length ∧
    midGestureState.store.length ≠ 0 ∧
    0 ∈ (mousedownStep midGestureState 5 6).1.displayList ∧
    heapGet (mousedownStep midGestureState 5 6).1.store 0 =
      heapGet midGestureState.store 0 ∧
    (mousedownStep midGestureState 5 6).1.redoStack = [] :=
  begin_while_drawing midGestureState 0 5 6 (by decide) (by decide) (by decide)

end Sketchpad
